import Mathlib

/-!
Verification development for the `project_monopoly` repository
(`src/game.py`): a simplified property-trading board-game simulator.

The Python source is shallowly embedded below.  Machine integers are
modelled as `Nat`/`Int` (Python integers are unbounded, so no wrap-around
is involved); the single floating-point computation of the source,
`int(0.1 * price)` in `Property.__init__`, is modelled exactly as IEEE-754
binary64 arithmetic via integer arithmetic (`pyTruncPointOneMul`).

Randomness (`random.randint`, `random.shuffle`, `random.choice`) is
modelled by oracle inputs: dice rolls and boolean draws are supplied as an
input stream, and the result of `random.shuffle` in `Game.setup` is
supplied as the post-shuffle order.
-/

set_option maxRecDepth 100000

/-- Bit length of a natural number (`0` for `0`), by structural recursion
on a fuel bound so that it reduces inside the kernel; `fuel = 128` below
covers every number smaller than `2^128`. -/
def bitLenAux : Nat → Nat → Nat
  | 0, _ => 0
  | fuel + 1, n => if n = 0 then 0 else bitLenAux fuel (n / 2) + 1

/-- Bit length for numbers below `2^128` (ample for every value arising
from the 53-bit significands manipulated here). -/
def bitLen (n : Nat) : Nat := bitLenAux 128 n

/-- Round `n / 2^s` to the nearest integer, ties to even:
the IEEE-754 default rounding used by CPython's float multiplication. -/
def roundNearestEven (n s : Nat) : Nat :=
  let q := n / 2 ^ s
  let r := n % 2 ^ s
  let h := 2 ^ (s - 1)
  if r > h then q + 1 else if r < h then q else if q % 2 = 0 then q else q + 1

/-- Exact model of Python's `int(0.1 * n)` for a nonnegative Python int `n`
with `n < 2^53` (so that the conversion of `n` to binary64 is exact).
The binary64 literal `0.1` is exactly `3602879701896397 / 2^55`; the
product is rounded to 53 significant bits (nearest, ties to even) and then
truncated toward zero by `int(...)`. -/
def pyTruncPointOneMul (n : Nat) : Nat :=
  let N := 3602879701896397 * n
  let b := bitLen N
  let s := if b > 53 then b - 53 else 0
  let m := roundNearestEven N s
  if s ≥ 55 then m * 2 ^ (s - 55) else m / 2 ^ (55 - s)

/-- The four purchase strategies of `class Strategies` (`game.py` lines
11-26).  `picky` is the strategy the spec calls "Demanding". -/
inductive Strat where
  | impulsive
  | picky
  | cautious
  | random
  deriving DecidableEq, Repr

/-- `class Property` (`game.py` lines 66-78): `price`, the derived `rent`
and the current `owner`.  Players are identified by their index into the
game's player-state list, mirroring Python object identity. -/
structure Property where
  price : Nat
  rent : Nat
  owner : Option Nat
  deriving DecidableEq, Repr

/-- `Property.__init__`: `self.rent = int(0.1 * price)`, `self.owner = None`. -/
def Property.mk' (price : Nat) : Property :=
  { price := price, rent := pyTruncPointOneMul price, owner := none }

/-- `Property.is_available`: `self.owner is None`. -/
def Property.is_available (p : Property) : Bool :=
  p.owner = none

/-- `Board.__init__` (`game.py` lines 88-92) builds `PROP_COUNT` properties
from `random.randint(MIN_PROP_PRICE, MAX_PROP_PRICE)` outcomes; the drawn
prices are supplied as the oracle list `prices`. -/
def mkBoard (prices : List Nat) : List Property :=
  prices.map Property.mk'

/-- The mutable per-player state of `class Player` (`game.py` lines 34-63):
cash `amount` (a Python int, possibly negative), board `position`, and the
strategy function `_should_buy` assigned at construction. -/
structure PlayerState where
  amount : Int
  position : Nat
  strategy : Strat
  deriving DecidableEq, Repr

/-- `Player.bankrupt`: `self.amount < 0`. -/
def PlayerState.bankrupt (p : PlayerState) : Bool :=
  p.amount < 0

/-- `Player.has_amount_to_buy`: `self.amount >= property.price`. -/
def has_amount_to_buy (amount : Int) (pr : Property) : Bool :=
  amount ≥ (pr.price : Int)

/-- The two `ValueError`s `Player.buy` can raise (`game.py` lines 49-53). -/
inductive BuyError where
  | unavailable
  | insufficientFunds
  deriving DecidableEq, Repr

/-- `Player.buy` (`game.py` lines 49-55).  The buyer is identified by
`pid`, its cash balance is `amount`.  Python raises a `ValueError` and
leaves all state untouched in the two failure cases; the result carries
the optional error together with the (possibly updated) balance and
property. -/
def buy (pid : Nat) (amount : Int) (pr : Property) :
    Option BuyError × Int × Property :=
  if ¬ pr.is_available then (some .unavailable, amount, pr)
  else if ¬ has_amount_to_buy amount pr then (some .insufficientFunds, amount, pr)
  else (none, amount - (pr.price : Int), { pr with owner := some pid })

/-- The strategy functions of `class Strategies`, evaluated on the deciding
player's state and the property.  `Strategies.random` consults
`random.choice([True, False])`; that draw is supplied as the oracle input
`draw`.  The other three ignore `draw`. -/
def stratDecide (s : Strat) (player : PlayerState) (pr : Property)
    (draw : Bool) : Bool :=
  match s with
  | .impulsive => true
  | .picky => pr.rent > 50
  | .cautious => player.amount - (pr.price : Int) ≥ 80
  | .random => draw

/-- The state of `class Game` (`game.py` lines 95-191).  Players are
identified by indices into `pstate`; `players` and `active_players` mirror
the two list attributes of the source.

After `Game.setup` runs, `self.active_players = self.players` makes the
two attributes aliases of one single list object, and every later mutation
(`list.remove` in `on_player_bankrupt`, `list.sort` in `finish`) goes
through that shared object.  The model therefore updates both fields
together in those operations; it is faithful for every state reached after
`setup()`, which is where all games live (`run` calls `setup` first). -/
structure Game where
  board : List Property
  players : List Nat
  active_players : List Nat
  pstate : List PlayerState
  round : Nat
  timeout : Bool
  winner : Option Nat
  deriving DecidableEq, Repr

/-- Constants of `class Game`. -/
def MAX_ROUNDS : Nat := 1000

def INITIAL_AMOUNT : Int := 300

def PRIZE_ON_ROUND_COMPLETION : Int := 100

/-- Look up a player's mutable state by id (in-range ids only ever arise). -/
def Game.ps (g : Game) (pid : Nat) : PlayerState :=
  g.pstate.getD pid ⟨0, 0, .impulsive⟩

/-- Replace a player's mutable state. -/
def Game.setPs (g : Game) (pid : Nat) (p : PlayerState) : Game :=
  { g with pstate := g.pstate.set pid p }

/-- `Game.property_count`: `len(self.board.properties)`. -/
def Game.property_count (g : Game) : Nat := g.board.length

/-- `Game.setup` (`game.py` lines 118-124): reset every player's amount
and position, shuffle the player order, and alias `active_players` to
`players`.  The result of `random.shuffle` is supplied as the oracle
`order` (a permutation of the previous `players` list). -/
def Game.setup (g : Game) (order : List Nat) : Game :=
  { g with
    pstate := g.pstate.map fun p => { p with amount := INITIAL_AMOUNT, position := 0 }
    players := order
    active_players := order
    winner := none }

/-- `Game.on_player_bankrupt` (`game.py` lines 126-130): remove the player
from `active_players` (which, being aliased, also removes it from
`players`) and clear ownership of every property it owned.  Python's
`list.remove` drops the first occurrence. -/
def Game.on_player_bankrupt (g : Game) (pid : Nat) : Game :=
  { g with
    players := g.players.erase pid
    active_players := g.active_players.erase pid
    board := g.board.map fun pr =>
      if pr.owner = some pid then { pr with owner := none } else pr }

/-- The position/bonus-count computation of `Game.move_player` (`game.py`
lines 135-143): the new position, and how many times
`on_player_round_completion` is invoked.  Note the source updates
`player.position` *before* computing the lap count, so the count in the
wrapping branch is `floor((new_position + dice_value) / count) + 1`.
(`math.floor` is applied to Python's true division, a binary64 value;
that floor agrees with integer division whenever numerator and
denominator are below `2^52` — far beyond any constructible board or dice
value — so `Nat` division models it exactly.) -/
def moveCalc (position dice_value count : Nat) : Nat × Nat :=
  if position + dice_value ≥ count then
    let newPos := (position + dice_value) % count
    (newPos, (newPos + dice_value) / count + 1)
  else
    (position + dice_value, 0)

/-- `Game.move_player`: update the position and credit
`PRIZE_ON_ROUND_COMPLETION` once per `on_player_round_completion` call. -/
def Game.move_player (g : Game) (pid : Nat) (dice_value : Nat) : Game :=
  let p := g.ps pid
  let mc := moveCalc p.position dice_value g.property_count
  g.setPs pid { p with
    position := mc.1
    amount := p.amount + PRIZE_ON_ROUND_COMPLETION * mc.2 }

/-- `Player.pay_rent` (`game.py` lines 57-59): credit the owner, then
debit the payer (sequenced exactly as in the source, so paying rent to
oneself is a net no-op). -/
def Game.pay_rent (g : Game) (pid : Nat) (ownerId : Nat) (rent : Nat) : Game :=
  let g1 := g.setPs ownerId { g.ps ownerId with amount := (g.ps ownerId).amount + rent }
  g1.setPs pid { g1.ps pid with amount := (g1.ps pid).amount - rent }

/-- `Game.execute_player_turn` (`game.py` lines 145-153): inspect the
property under the player; if available, buy it when affordable and the
strategy agrees; otherwise pay rent to its owner.  `draw` is the oracle
input for `Strategies.random`.  (For positions beyond the board Python
would raise `IndexError`; positions stay in range in every real game.) -/
def Game.execute_player_turn (g : Game) (pid : Nat) (draw : Bool) : Game :=
  let p := g.ps pid
  match g.board.get? p.position with
  | none => g
  | some target =>
    if target.is_available then
      if has_amount_to_buy p.amount target ∧ stratDecide p.strategy p target draw then
        match buy pid p.amount target with
        | (none, amount', target') =>
          { g.setPs pid { p with amount := amount' } with
            board := g.board.set p.position target' }
        | (some _, _, _) => g
      else g
    else
      match target.owner with
      | some ownerId => g.pay_rent pid ownerId target.rent
      | none => g

/-- `Game.should_run` (`game.py` lines 155-161), the spec's
`should_continue`: returns the loop condition, possibly setting
`timeout`. -/
def Game.should_run (g : Game) : Bool × Game :=
  if g.active_players.length = 1 then (false, g)
  else if g.round ≥ MAX_ROUNDS then (false, { g with timeout := true })
  else (true, g)

/-- Insert into a list sorted in non-increasing key order, after every
element whose key is at least as large (so earlier-listed elements keep
priority among equal keys). -/
def insDescBy (k : Nat → Int) (x : Nat) : List Nat → List Nat
  | [] => [x]
  | y :: ys => if k x ≥ k y then x :: y :: ys else y :: insDescBy k x ys

/-- Stable sort by key, descending.  A stable sort's output is uniquely
determined by the key order together with the input order of equal-key
elements, so this insertion sort computes exactly the result of Python's
(stable) `list.sort(key=..., reverse=True)`.  (`reverse=True` flips the
comparisons; it does not reverse the list, so stability is preserved.) -/
def sortDescBy (k : Nat → Int) : List Nat → List Nat
  | [] => []
  | x :: xs => insDescBy k x (sortDescBy k xs)

/-- Insert into a list sorted in non-decreasing key order, after every
element whose key is at most as large. -/
def insAscBy (k : Nat → Int) (x : Nat) : List Nat → List Nat
  | [] => [x]
  | y :: ys => if k x ≤ k y then x :: y :: ys else y :: insAscBy k x ys

/-- Stable sort by key, ascending: computes the result of Python's
`list.sort(key=...)`. -/
def sortAscBy (k : Nat → Int) : List Nat → List Nat
  | [] => []
  | x :: xs => insAscBy k x (sortAscBy k xs)

/-- Key used by `Game.finish`: `lambda p: p.amount`. -/
def Game.amountOf (g : Game) (pid : Nat) : Int := (g.ps pid).amount

/-- `Game.finish` (`game.py` lines 163-179).  With one active player that
player wins.  Otherwise `active_players` is sorted in place by amount
descending (`players`, aliased to the same list, is sorted with it); if
the top two are tied, the players tied at the maximum are re-sorted by
`self.players.index(p)` — an index into that same sorted list — and the
first wins.  A zero-length `active_players` would raise `IndexError` in
Python; the model leaves `winner` as `none` there. -/
def Game.finish (g : Game) : Game :=
  if g.active_players.length = 1 then
    { g with winner := g.active_players.head? }
  else
    let sorted := sortDescBy g.amountOf g.active_players
    match sorted with
    | a :: b :: _ =>
      if g.amountOf a = g.amountOf b then
        let tied := sorted.filter fun p => g.amountOf p = g.amountOf a
        let tied2 := sortAscBy (fun p => (sorted.indexOf p : Int)) tied
        { g with players := sorted, active_players := sorted, winner := tied2.head? }
      else
        { g with players := sorted, active_players := sorted, winner := some a }
    | _ => { g with players := sorted, active_players := sorted, winner := none }

/-- One player's turn in the body of `Game.run`'s round loop (`game.py`
lines 184-189): roll the dice, move, resolve the landed property, and
process bankruptcy if the player's amount went negative.  `inp` carries
the dice roll and the `Strategies.random` draw for this turn. -/
def Game.takeTurn (g : Game) (pid : Nat) (inp : Nat × Bool) : Game :=
  let g1 := g.move_player pid inp.1
  let g2 := g1.execute_player_turn pid inp.2
  if (g2.ps pid).bankrupt then g2.on_player_bankrupt pid else g2

/-- The `for player in self.active_players:` loop of `Game.run`, with
CPython's list-iterator semantics: the iterator keeps a cursor `i` into
the *live* list, stopping once `i` reaches the current length — so
removing the element at the cursor shifts the remainder left and the next
element is skipped.  `ins` is the oracle input stream indexed by the
running turn counter `t`.  Returns the final state, the ids processed (in
order), and the advanced turn counter.  `fuel` bounds the iterations;
since the list never grows, the initial list length (used by `playRound`)
is always sufficient. -/
def Game.runTurns (ins : Nat → Nat × Bool) :
    Nat → Game → Nat → Nat → Game × List Nat × Nat
  | 0, g, _, t => (g, [], t)
  | fuel + 1, g, i, t =>
    if h : i < g.active_players.length then
      let pid := g.active_players.get ⟨i, h⟩
      let g' := g.takeTurn pid (ins t)
      let r := Game.runTurns ins fuel g' (i + 1) (t + 1)
      (r.1, pid :: r.2.1, r.2.2)
    else (g, [], t)

/-- One round of `Game.run`: one pass of the player loop followed by
`self.round += 1`. -/
def Game.playRound (g : Game) (ins : Nat → Nat × Bool) (t : Nat) :
    Game × List Nat × Nat :=
  let r := Game.runTurns ins g.active_players.length g 0 t
  ({ r.1 with round := r.1.round + 1 }, r.2.1, r.2.2)

/-- The `while self.should_run():` loop of `Game.run`.  `fuel` bounds the
iterations; `round` grows by one per round and `should_run` stops at
`MAX_ROUNDS = 1000`, so `MAX_ROUNDS + 1` iterations always suffice for a
game starting at round 0. -/
def Game.loop (ins : Nat → Nat × Bool) : Nat → Game → Nat → Game
  | 0, g, _ => g
  | fuel + 1, g, t =>
    if (g.should_run).1 then
      Game.loop ins fuel ((g.should_run).2.playRound ins t).1
        ((g.should_run).2.playRound ins t).2.2
    else (g.should_run).2

/-- `Game.run` (`game.py` lines 181-191): `setup`, the round loop, then
`finish`.  `order` is the oracle shuffle result, `ins` the oracle stream
of dice rolls and random-strategy draws. -/
def Game.run (g : Game) (order : List Nat) (ins : Nat → Nat × Bool) : Game :=
  (Game.loop ins (MAX_ROUNDS + 1) (g.setup order) 0).finish

/- Concrete games used by the counterexample and witness theorems below. -/

/-- A game on the default 20-property board layout (all prices 100) with
one player standing on position 9, as in the multi-lap test of the
repository (`test.py` lines 138-149). -/
def gMove : Game :=
  { board := mkBoard (List.replicate 20 100)
    players := [0]
    active_players := [0]
    pstate := [⟨300, 9, .impulsive⟩]
    round := 0
    timeout := false
    winner := none }

/-- Three impulsive players on a one-property board whose property (price
6000) is still owned by player 2 — property ownership is never cleared by
`setup`, and the repository's own tests build games from boards with
pre-owned properties (`test.py` lines 206-238).  Rolling 1, player 0 pays
rent 600 out of 500 and goes bankrupt mid-round. -/
def gSkip : Game :=
  { board := [{ Property.mk' 6000 with owner := some 2 }]
    players := [0, 1, 2]
    active_players := [0, 1, 2]
    pstate := [⟨300, 0, .impulsive⟩, ⟨300, 0, .impulsive⟩, ⟨300, 0, .impulsive⟩]
    round := 0
    timeout := false
    winner := none }

/-- The same pre-owned-board scenario, used to watch the `players` list
shrink on bankruptcy. -/
def gShrink : Game :=
  { board := [{ Property.mk' 6000 with owner := some 2 }]
    players := [0, 1, 2]
    active_players := [0, 1, 2]
    pstate := [⟨300, 0, .impulsive⟩, ⟨300, 0, .impulsive⟩, ⟨300, 0, .impulsive⟩]
    round := 0
    timeout := false
    winner := none }

/-- A mid-game state with no active players left and `round = 0`. -/
def gEmptyActive : Game :=
  { board := mkBoard [100, 250]
    players := []
    active_players := []
    pstate := [⟨-10, 0, .impulsive⟩]
    round := 0
    timeout := false
    winner := none }

/-- A running two-player state (round 5). -/
def gTwoLive : Game :=
  { board := mkBoard [100, 250]
    players := [0, 1]
    active_players := [0, 1]
    pstate := [⟨300, 0, .impulsive⟩, ⟨200, 1, .cautious⟩]
    round := 5
    timeout := false
    winner := none }

/-- A four-player state about to be ranked by `finish`: amounts
420, 500, 500, 90 in post-setup seating order `[3, 1, 0, 2]`. -/
def gFinish : Game :=
  { board := mkBoard [100, 250]
    players := [3, 1, 0, 2]
    active_players := [3, 1, 0, 2]
    pstate := [⟨500, 0, .impulsive⟩, ⟨500, 1, .picky⟩, ⟨90, 2, .cautious⟩, ⟨420, 3, .random⟩]
    round := 1000
    timeout := true
    winner := none }

/-- A three-player post-setup state used to run one bankruptcy. -/
def gBankrupt : Game :=
  { board := [{ Property.mk' 200 with owner := some 0 },
              Property.mk' 100,
              { Property.mk' 250 with owner := some 1 }]
    players := [1, 0, 2]
    active_players := [1, 0, 2]
    pstate := [⟨-5, 1, .impulsive⟩, ⟨300, 0, .picky⟩, ⟨300, 2, .cautious⟩]
    round := 3
    timeout := false
    winner := none }

/-- Three impulsive players on a fresh default-layout board; nobody can go
bankrupt on the first round, so no player is skipped. -/
def gCalm : Game :=
  { board := mkBoard (List.replicate 20 100)
    players := [2, 0, 1]
    active_players := [2, 0, 1]
    pstate := [⟨300, 0, .impulsive⟩, ⟨300, 0, .impulsive⟩, ⟨300, 0, .impulsive⟩]
    round := 0
    timeout := false
    winner := none }

/-- A single picky player on a fresh default board (prices drawn from
`[100, 250]`). -/
def gPicky : Game :=
  { board := mkBoard [100, 137, 250, 199]
    players := [0]
    active_players := [0]
    pstate := [⟨300, 0, .picky⟩]
    round := 0
    timeout := false
    winner := none }

/-- Boolean check that `int(0.1 * n) == n // 10` for `1 ≤ n ≤ bound`. -/
def rentMatchesUpTo : Nat → Bool
  | 0 => true
  | n + 1 => (pyTruncPointOneMul (n + 1) == (n + 1) / 10) && rentMatchesUpTo n

/-- The strategy a player was constructed with. -/
def Game.stratOf (g : Game) (pid : Nat) : Strat := (g.ps pid).strategy

/-- Invariant for C10: the distinguished player uses the `picky` strategy,
every board property has rent at most 50 (true of every default board,
where rents are at most 25), and no property is owned by that player. -/
def PickyInv (pid : Nat) (g : Game) : Prop :=
  g.stratOf pid = .picky ∧
  (∀ pr ∈ g.board, pr.rent ≤ 50) ∧
  (∀ pr ∈ g.board, pr.owner ≠ some pid)

/-- The immutable pricing data of a property: its price and rent. -/
def propPR (pr : Property) : Nat × Nat := (pr.price, pr.rent)

/-! ## Sanity checks (ground truth from CPython) -/

example : pyTruncPointOneMul 0 = 0 := by decide
example : pyTruncPointOneMul 1 = 0 := by decide
example : pyTruncPointOneMul 10 = 1 := by decide
example : pyTruncPointOneMul 55 = 5 := by decide
example : pyTruncPointOneMul 100 = 10 := by decide
example : pyTruncPointOneMul 250 = 25 := by decide
example : pyTruncPointOneMul 510 = 51 := by decide
example : pyTruncPointOneMul 6000 = 600 := by decide
example : bitLen 8 = 4 := by decide

/-! ## C1: lap-count of a single move -/

/--
C1 (amended).  The original claim states that a single `Game.move_player`
call credits `floor((old_position + roll) / board_length)` round-completion
bonuses.  The source computes the count from the *already wrapped* new
position, which deviates for large rolls (see `claimC1_counterexample`).
Amended claim: for every call with `0 ≤ old_position < board_length`,
`roll ≥ 1` and `old_position + 2 * roll < 2 * board_length` (true in
particular for every standard dice roll 1–6 on the 20-cell board), the
number of bonuses equals `floor((old_position + roll) / board_length)`.
-/
theorem claimC1_lap_count (position dice_value count : Nat)
    (hpos : position < count) (hroll : 1 ≤ dice_value)
    (hsmall : position + 2 * dice_value < 2 * count) :
    (moveCalc position dice_value count).2 = (position + dice_value) / count := by
  unfold moveCalc
  by_cases h : position + dice_value ≥ count
  · simp only [h, if_pos]
    have hmod : (position + dice_value) % count = position + dice_value - count := by
      rw [Nat.mod_eq_sub_mod h, Nat.mod_eq_of_lt (by omega)]
    have hdiv1 : (position + dice_value) / count = 1 := by
      apply Nat.div_eq_of_lt_le <;> omega
    have hdiv0 : (position + dice_value - count + dice_value) / count = 0 :=
      Nat.div_eq_of_lt (by omega)
    rw [hmod, hdiv0, hdiv1]
  · simp only [h, if_neg, if_false]
    exact (Nat.div_eq_of_lt (by omega)).symm

/--
C1 (counterexample to the original claim).  Moving from position 9 by 19
on a 20-cell board, the source credits 2 bonuses (the player's amount
grows by `2 * PRIZE_ON_ROUND_COMPLETION`), while
`floor((9 + 19) / 20) = 1`.
-/
theorem claimC1_counterexample :
    (moveCalc 9 19 20).2 = 2 ∧
    ((gMove.move_player 0 19).ps 0).amount = 300 + 100 * 2 ∧
    (9 + 19) / 20 = 1 ∧ (2 : Nat) ≠ 1 := by
  refine ⟨by decide, by decide, by decide, by decide⟩

/-- C1 (witness): the amended claim applies to the wrap from position 19
with roll 1, yielding exactly one bonus. -/
theorem claimC1_witness :
    (19 < 20 ∧ 1 ≤ 1 ∧ 19 + 2 * 1 < 2 * 20) ∧
    (moveCalc 19 1 20).2 = (19 + 1) / 20 :=
  ⟨⟨by decide, by decide, by decide⟩,
   claimC1_lap_count 19 1 20 (by decide) (by decide) (by decide)⟩

/-! ## C2: the multi-lap move (position 9, roll 19, board 20) -/

/--
C2 (confirmed).  `move_player` with `position = 9`, `dice_value = 19`,
`board_length = 20` leaves the player at position 8 and credits exactly
two round-completion bonuses: the amount grows by exactly
`2 * PRIZE_ON_ROUND_COMPLETION = 200`.
-/
theorem claimC2_multi_lap :
    moveCalc 9 19 20 = (8, 2) ∧
    ((gMove.move_player 0 19).ps 0).position = 8 ∧
    ((gMove.move_player 0 19).ps 0).amount =
      (gMove.ps 0).amount + 2 * PRIZE_ON_ROUND_COMPLETION := by
  refine ⟨by decide, by decide, by decide⟩

/-! ## C7: `Player.buy` error precedence and effects -/

/--
C7 (confirmed).  `buy` fails with the "unavailable" error whenever the
property's owner is set, even if the buyer could afford it; otherwise it
fails with the "insufficient funds" error when `amount < price`; otherwise
it assigns the owner and deducts exactly the price.  Availability is
checked before affordability, and a failing `buy` changes neither the
buyer's amount nor the property.
-/
theorem claimC7_buy (pid : Nat) (amount : Int) (pr : Property) :
    (pr.owner.isSome → buy pid amount pr = (some .unavailable, amount, pr)) ∧
    (pr.owner = none → amount < (pr.price : Int) →
      buy pid amount pr = (some .insufficientFunds, amount, pr)) ∧
    (pr.owner = none → (pr.price : Int) ≤ amount →
      buy pid amount pr =
        (none, amount - (pr.price : Int), { pr with owner := some pid })) ∧
    (∀ e amount' pr', buy pid amount pr = (some e, amount', pr') →
      amount' = amount ∧ pr' = pr) := by
  unfold buy Property.is_available has_amount_to_buy
  refine ⟨?_, ?_, ?_, ?_⟩
  · intro h
    have : ¬ pr.owner = none := by
      cases hp : pr.owner <;> simp [hp] at h ⊢
    simp [this]
  · intro h hlt
    simp [h, hlt, not_le.mpr hlt]
  · intro h hle
    simp [h, not_lt.mpr hle, hle]
  · intro e amount' pr'
    by_cases h1 : pr.owner = none
    · by_cases h2 : amount < (pr.price : Int)
      · simp [h1, h2, not_le.mpr h2]
        intro _ h4 h5
        exact ⟨h4.symm, h5.symm⟩
      · simp [h1, not_lt.mp h2, le_of_not_lt h2]
    · simp [h1]
      intro _ h4 h5
      exact ⟨h4.symm, h5.symm⟩

/-- C7 (witness): concrete instances of all three behaviours. -/
theorem claimC7_buy_witness :
    (buy 0 1000 { price := 100, rent := 10, owner := some 5 } =
      (some .unavailable, 1000, { price := 100, rent := 10, owner := some 5 })) ∧
    (buy 0 99 (Property.mk' 100) = (some .insufficientFunds, 99, Property.mk' 100)) ∧
    (buy 0 300 (Property.mk' 100) =
      (none, 200, { Property.mk' 100 with owner := some 0 })) :=
  ⟨(claimC7_buy 0 1000 _).1 (by decide),
   by
    have := (claimC7_buy 0 99 (Property.mk' 100)).2.1 (by decide) (by decide)
    simpa using this,
   by
    have := (claimC7_buy 0 300 (Property.mk' 100)).2.2.1 (by decide) (by decide)
    simpa using this⟩

/-! ## Helper lemmas: stable insertion sorts and `find?` -/

theorem find?_congr_mem {l : List Nat} {p q : Nat → Bool}
    (h : ∀ x ∈ l, p x = q x) : l.find? p = l.find? q := by
  induction l with
  | nil => rfl
  | cons x xs ih =>
    have hx := h x (List.mem_cons_self x xs)
    cases hq : q x with
    | true => rw [List.find?_cons_of_pos _ (hx.trans hq), List.find?_cons_of_pos _ hq]
    | false =>
      rw [List.find?_cons_of_neg _ (by simp [hx, hq]),
        List.find?_cons_of_neg _ (by simp [hq])]
      exact ih fun y hy => h y (List.mem_cons_of_mem _ hy)

theorem insDescBy_length (k : Nat → Int) (x : Nat) (l : List Nat) :
    (insDescBy k x l).length = l.length + 1 := by
  induction l with
  | nil => rfl
  | cons y ys ih =>
    unfold insDescBy
    by_cases h : k x ≥ k y <;> simp [h, ih]

theorem sortDescBy_length (k : Nat → Int) (l : List Nat) :
    (sortDescBy k l).length = l.length := by
  induction l with
  | nil => rfl
  | cons x xs ih => unfold sortDescBy; rw [insDescBy_length, ih]; rfl

theorem mem_insDescBy (k : Nat → Int) (x y : Nat) (l : List Nat) :
    y ∈ insDescBy k x l ↔ y = x ∨ y ∈ l := by
  induction l with
  | nil => simp [insDescBy]
  | cons z zs ih =>
    unfold insDescBy
    by_cases h : k x ≥ k z <;> simp [h, ih] <;> try tauto

theorem mem_sortDescBy (k : Nat → Int) (y : Nat) (l : List Nat) :
    y ∈ sortDescBy k l ↔ y ∈ l := by
  induction l with
  | nil => simp [sortDescBy]
  | cons x xs ih => unfold sortDescBy; rw [mem_insDescBy, ih]; simp

/-- The head of the stable descending sort is the *first* element of the
input attaining the maximal key. -/
theorem sortDescBy_head_spec (k : Nat → Int) (l : List Nat) :
    sortDescBy k l = [] ∨
    ∃ w t, sortDescBy k l = w :: t ∧ w ∈ l ∧ (∀ y ∈ l, k y ≤ k w) ∧
      l.find? (fun y => k w ≤ k y) = some w := by
  induction l with
  | nil => exact Or.inl rfl
  | cons x xs ih =>
    right
    rcases ih with hnil | ⟨w, t, hsort, hmem, hmax, hfind⟩
    · have hxs : xs = [] := by
        have := sortDescBy_length k xs
        rw [hnil] at this
        exact List.eq_nil_of_length_eq_zero this.symm
      subst hxs
      refine ⟨x, [], ?_, by simp, by simp, ?_⟩
      · simp [sortDescBy, hnil, insDescBy]
      · rw [List.find?_cons_of_pos _ (by simp)]
    · unfold sortDescBy
      rw [hsort]
      unfold insDescBy
      by_cases hxw : k x ≥ k w
      · refine ⟨x, w :: t, by simp [hxw], by simp, ?_, ?_⟩
        · intro y hy
          rcases List.mem_cons.mp hy with rfl | hy'
          · exact le_refl _
          · exact le_trans (hmax y hy') hxw
        · rw [List.find?_cons_of_pos _ (by simp)]
      · have hlt : k x < k w := lt_of_not_le hxw
        refine ⟨w, insDescBy k x t, by simp [hxw], List.mem_cons_of_mem _ hmem, ?_, ?_⟩
        · intro y hy
          rcases List.mem_cons.mp hy with rfl | hy'
          · exact le_of_lt hlt
          · exact hmax y hy'
        · rw [List.find?_cons_of_neg _ (by simp [not_le.mpr hlt]), hfind]

theorem insAscBy_ne_nil (k : Nat → Int) (x : Nat) (l : List Nat) :
    insAscBy k x l ≠ [] := by
  cases l with
  | nil => simp [insAscBy]
  | cons y ys =>
    unfold insAscBy
    by_cases h : k x ≤ k y <;> simp [h]

theorem insAscBy_length (k : Nat → Int) (x : Nat) (l : List Nat) :
    (insAscBy k x l).length = l.length + 1 := by
  induction l with
  | nil => rfl
  | cons y ys ih =>
    unfold insAscBy
    by_cases h : k x ≤ k y <;> simp [h, ih]

theorem sortAscBy_length (k : Nat → Int) (l : List Nat) :
    (sortAscBy k l).length = l.length := by
  induction l with
  | nil => rfl
  | cons x xs ih => unfold sortAscBy; rw [insAscBy_length, ih]; rfl

/-- The head of the stable ascending sort is an element of the input with
minimal key. -/
theorem sortAscBy_head_min (k : Nat → Int) (l : List Nat) (w : Nat) (t : List Nat)
    (h : sortAscBy k l = w :: t) : w ∈ l ∧ ∀ y ∈ l, k w ≤ k y := by
  induction l generalizing w t with
  | nil => simp [sortAscBy] at h
  | cons x xs ih =>
    unfold sortAscBy at h
    cases hxs : sortAscBy k xs with
    | nil =>
      have hnil : xs = [] := by
        have hlen := sortAscBy_length k xs
        rw [hxs] at hlen
        exact List.eq_nil_of_length_eq_zero hlen.symm
      subst hnil
      simp [insAscBy, hxs] at h
      refine ⟨by simp [h.1.symm], ?_⟩
      intro z hz
      rcases List.mem_cons.mp hz with rfl | hz'
      · simp [h.1]
      · simp at hz'
    | cons y ys =>
      rw [hxs] at h
      unfold insAscBy at h
      by_cases hxy : k x ≤ k y
      · rw [if_pos hxy] at h
        injection h with h1 h2
        subst h1
        refine ⟨by simp, ?_⟩
        intro z hz
        rcases List.mem_cons.mp hz with rfl | hz'
        · exact le_refl _
        · obtain ⟨hymem, hymin⟩ := ih y ys hxs
          exact le_trans hxy (hymin z hz')
      · rw [if_neg hxy] at h
        injection h with h1 h2
        subst h1
        obtain ⟨hymem, hymin⟩ := ih _ _ hxs
        refine ⟨List.mem_cons_of_mem _ hymem, ?_⟩
        intro z hz
        rcases List.mem_cons.mp hz with rfl | hz'
        · exact le_of_lt (lt_of_not_le hxy)
        · exact hymin z hz'

/-- Restricting a `find?` over a duplicate-free list to a sublist: the
first element of `P` that lies in the sublist `l` and satisfies `p` is the
first element of `l` satisfying `p`. -/
theorem find?_sublist (P l : List Nat) (hsub : l.Sublist P) (hnd : P.Nodup)
    (p : Nat → Bool) :
    P.find? (fun x => decide (x ∈ l) && p x) = l.find? p := by
  induction hsub with
  | slnil => rfl
  | @cons l₁ l₂ a h ih =>
    have ha : a ∉ l₁ := fun hmem => (List.nodup_cons.mp hnd).1 (h.mem hmem)
    rw [List.find?_cons_of_neg _ (by simp [ha])]
    exact ih (List.nodup_cons.mp hnd).2
  | @cons₂ l₁ l₂ a h ih =>
    have hanot : a ∉ l₂ := (List.nodup_cons.mp hnd).1
    cases hp : p a with
    | true =>
      rw [List.find?_cons_of_pos _ (by simp [hp]), List.find?_cons_of_pos _ hp]
    | false =>
      rw [List.find?_cons_of_neg _ (by simp [hp]), List.find?_cons_of_neg _ (by simp [hp])]
      rw [find?_congr_mem (l := l₂)
        (p := fun x => decide (x ∈ a :: l₁) && p x)
        (q := fun x => decide (x ∈ l₁) && p x)
        (fun x hx => by
          have hxa : x ≠ a := fun hxa => hanot (hxa ▸ hx)
          simp [List.mem_cons, hxa])]
      exact ih (List.nodup_cons.mp hnd).2

/-- Unfolding of the multi-player branch of `Game.finish`. -/
theorem finish_winner_branch (g : Game) (hlen : ¬ g.active_players.length = 1)
    (w b : Nat) (rest : List Nat)
    (hsort : sortDescBy g.amountOf g.active_players = w :: b :: rest) :
    (g.finish).winner =
      if g.amountOf w = g.amountOf b then
        (sortAscBy (fun p => (((w :: b :: rest) : List Nat).indexOf p : Int))
          ((w :: b :: rest).filter fun p => decide (g.amountOf p = g.amountOf w))).head?
      else some w := by
  unfold Game.finish
  rw [if_neg hlen]
  simp only [hsort]
  by_cases hab : g.amountOf w = g.amountOf b <;> simp [hab]

/-- `Game.finish` picks exactly the first element of the (pre-`finish`)
`active_players` list whose amount is maximal among the active players. -/
theorem finish_winner_eq_first_max (g : Game) (h2 : g.active_players ≠ []) :
    (g.finish).winner =
      g.active_players.find?
        (fun p => decide (∀ q ∈ g.active_players, g.amountOf q ≤ g.amountOf p)) := by
  by_cases hlen : g.active_players.length = 1
  · obtain ⟨w, hw⟩ : ∃ w, g.active_players = [w] := by
      cases hact : g.active_players with
      | nil => exact absurd hact h2
      | cons a as =>
        refine ⟨a, ?_⟩
        rw [hact] at hlen
        simp at hlen
        simp [hlen]
    unfold Game.finish
    rw [if_pos hlen, hw]
    rw [List.find?_cons_of_pos _ (by simp [hw])]
    simp [hw]
  · rcases sortDescBy_head_spec g.amountOf g.active_players with hnil | ⟨w, t, hsort, hmem, hmax, hfind⟩
    · have := sortDescBy_length g.amountOf g.active_players
      rw [hnil] at this
      exact absurd (List.eq_nil_of_length_eq_zero this.symm) h2
    · have hfind' : g.active_players.find?
          (fun p => decide (∀ q ∈ g.active_players, g.amountOf q ≤ g.amountOf p)) = some w := by
        rw [find?_congr_mem (p := fun p => decide (∀ q ∈ g.active_players, g.amountOf q ≤ g.amountOf p))
          (q := fun y => decide (g.amountOf w ≤ g.amountOf y))
          (fun y hy => by
            rw [decide_eq_decide]
            constructor
            · intro hall; exact hall w hmem
            · intro hwy q hq; exact le_trans (hmax q hq) hwy)]
        exact hfind
      rw [hfind']
      cases ht : t with
      | nil =>
        exfalso
        rw [ht] at hsort
        have := sortDescBy_length g.amountOf g.active_players
        rw [hsort] at this
        exact hlen this.symm
      | cons b rest =>
        rw [ht] at hsort
        rw [finish_winner_branch g hlen w b rest hsort]
        by_cases hab : g.amountOf w = g.amountOf b
        · rw [if_pos hab]
          -- the tied players, re-sorted by index into the sorted list, start with w
          have htied : (w :: b :: rest).filter (fun p => decide (g.amountOf p = g.amountOf w)) =
              w :: ((b :: rest).filter (fun p => decide (g.amountOf p = g.amountOf w))) := by
            rw [List.filter_cons_of_pos (by simp)]
          rw [htied]
          cases hts : sortAscBy (fun p => ((w :: b :: rest).indexOf p : Int))
              (w :: (b :: rest).filter (fun p => decide (g.amountOf p = g.amountOf w))) with
          | nil =>
            exfalso
            have := sortAscBy_length (fun p => ((w :: b :: rest).indexOf p : Int))
              (w :: (b :: rest).filter (fun p => decide (g.amountOf p = g.amountOf w)))
            rw [hts] at this
            simp at this
          | cons w' t' =>
            obtain ⟨hw'mem, hw'min⟩ := sortAscBy_head_min _ _ _ _ hts
            have hw'idx : ((w :: b :: rest).indexOf w' : Int) ≤ 0 := by
              have := hw'min w (by simp)
              simpa [List.indexOf_cons_self] using this
            have hw'zero : (w :: b :: rest).indexOf w' = 0 := by
              omega
            have hww' : w' = w := by
              by_contra hne
              have : (w :: b :: rest).indexOf w' = (b :: rest).indexOf w' + 1 := by
                simp [List.indexOf_cons, Ne.symm hne]
              omega
            simp [hts, hww']
        · rw [if_neg hab]


/-! ## C3: winner resolution in `Game.finish` -/

/--
C3 (confirmed).  Let `P` be the canonical post-setup (shuffled) `players`
order — a duplicate-free list of which the current `active_players` list
is a sublist (the run only ever removes players, preserving order).  Then
`finish` sets `winner` to the first element of `P` that is still active
and whose amount is maximal among the active players: with exactly one
active player this is that player, and with two or more it is the active
player of maximal amount, ties broken by earliest position in `P`.  The
second conjunct re-states the one-player case directly.
-/
theorem claimC3_finish_winner (g : Game) (P : List Nat)
    (hne : g.active_players ≠ [])
    (hsub : g.active_players.Sublist P) (hnd : P.Nodup) :
    ((g.finish).winner =
      P.find? (fun p => decide (p ∈ g.active_players) &&
        decide (∀ q ∈ g.active_players, g.amountOf q ≤ g.amountOf p))) ∧
    (g.active_players.length = 1 → (g.finish).winner = g.active_players.head?) := by
  constructor
  · rw [find?_sublist P g.active_players hsub hnd]
    exact finish_winner_eq_first_max g hne
  · intro hlen
    unfold Game.finish
    rw [if_pos hlen]

/-- C3 (witness): amounts 420, 500, 500, 90 in post-setup seating
`[3, 1, 0, 2]`; players 1 and 0 tie at 500 and player 1, seated earlier,
wins. -/
theorem claimC3_finish_winner_witness :
    (gFinish.active_players ≠ [] ∧
      gFinish.active_players.Sublist [3, 1, 0, 2] ∧
      ([3, 1, 0, 2] : List Nat).Nodup) ∧
    (gFinish.finish).winner =
      ([3, 1, 0, 2] : List Nat).find? (fun p => decide (p ∈ gFinish.active_players) &&
        decide (∀ q ∈ gFinish.active_players, gFinish.amountOf q ≤ gFinish.amountOf p)) :=
  ⟨⟨by decide, List.Sublist.refl _, by decide⟩,
   (claimC3_finish_winner gFinish [3, 1, 0, 2] (by decide)
     (List.Sublist.refl _) (by decide)).1⟩

/-! ## C6: the `should_run` termination test -/

/--
C6 (amended).  The original claim reads `should_run` returns true iff more
than one active player remains and `round < MAX_ROUNDS`; the source,
however, tests `len(active_players) == 1`, so with an *empty*
`active_players` list (and `round < MAX_ROUNDS`) it returns true — see
`claimC6_counterexample`.  Amended claim: whenever at least one active
player remains, `should_run` returns true iff more than one active player
remains and `round < MAX_ROUNDS` (1000); and whenever it returns false
with the number of active players different from 1 — i.e. it stops because
`round` reached MAX_ROUNDS — it sets `timeout` to true.
-/
theorem claimC6_should_run (g : Game) (h : g.active_players ≠ []) :
    ((g.should_run).1 = true ↔
      1 < g.active_players.length ∧ g.round < MAX_ROUNDS) ∧
    (g.active_players.length ≠ 1 → g.round ≥ MAX_ROUNDS →
      ((g.should_run).1 = false ∧ (g.should_run).2.timeout = true)) := by
  have hlen : 0 < g.active_players.length := List.length_pos.mpr h
  unfold Game.should_run
  constructor
  · by_cases h1 : g.active_players.length = 1
    · simp [h1]
    · by_cases h2 : g.round ≥ MAX_ROUNDS
      · simp [h1, h2]
      · simp [h1, h2]
        omega
  · intro h1 h2
    simp [h1, h2]

/-- C6 (counterexample to the original claim): on a state with no active
players and `round = 0 < MAX_ROUNDS`, `should_run` returns true although
"more than one active player remains" is false. -/
theorem claimC6_counterexample :
    (gEmptyActive.should_run).1 = true ∧
    ¬ (1 < gEmptyActive.active_players.length ∧ gEmptyActive.round < MAX_ROUNDS) := by
  refine ⟨by decide, by decide⟩

/-- C6 (witness): a live two-player round-5 state satisfies the amended
equivalence. -/
theorem claimC6_witness :
    (gTwoLive.active_players ≠ []) ∧
    ((gTwoLive.should_run).1 = true ↔
      1 < gTwoLive.active_players.length ∧ gTwoLive.round < MAX_ROUNDS) :=
  ⟨by decide, (claimC6_should_run gTwoLive (by decide)).1⟩

/-! ## Helper lemmas: the turn / round / loop machinery -/

theorem ps_setPs (g : Game) (i j : Nat) (p : PlayerState) :
    (g.setPs i p).ps j = if i = j ∧ i < g.pstate.length then p else g.ps j := by
  unfold Game.ps Game.setPs
  by_cases hij : i = j
  · subst hij
    by_cases hlen : i < g.pstate.length
    · simp [List.getD_eq_getElem?_getD, List.getElem?_set_self, hlen]
    · rw [List.set_eq_of_length_le (le_of_not_lt hlen)]
      simp [hlen]
  · simp [List.getD_eq_getElem?_getD, List.getElem?_set_ne hij, hij]

theorem move_player_lists (g : Game) (pid d : Nat) :
    (g.move_player pid d).players = g.players ∧
    (g.move_player pid d).active_players = g.active_players ∧
    (g.move_player pid d).board = g.board :=
  ⟨rfl, rfl, rfl⟩

theorem pay_rent_lists (g : Game) (pid ownerId rent : Nat) :
    (g.pay_rent pid ownerId rent).players = g.players ∧
    (g.pay_rent pid ownerId rent).active_players = g.active_players ∧
    (g.pay_rent pid ownerId rent).board = g.board :=
  ⟨rfl, rfl, rfl⟩

theorem execute_player_turn_players (g : Game) (pid : Nat) (draw : Bool) :
    (g.execute_player_turn pid draw).players = g.players := by
  simp only [Game.execute_player_turn]
  repeat' split
  all_goals rfl

theorem execute_player_turn_active (g : Game) (pid : Nat) (draw : Bool) :
    (g.execute_player_turn pid draw).active_players = g.active_players := by
  simp only [Game.execute_player_turn]
  repeat' split
  all_goals rfl

theorem on_player_bankrupt_lists (g : Game) (pid : Nat) :
    (g.on_player_bankrupt pid).players = g.players.erase pid ∧
    (g.on_player_bankrupt pid).active_players = g.active_players.erase pid :=
  ⟨rfl, rfl⟩

/-- A turn either leaves both player lists untouched or erases exactly the
acting player from both. -/
theorem takeTurn_lists (g : Game) (pid : Nat) (inp : Nat × Bool) :
    ((g.takeTurn pid inp).players = g.players ∧
     (g.takeTurn pid inp).active_players = g.active_players) ∨
    ((g.takeTurn pid inp).players = g.players.erase pid ∧
     (g.takeTurn pid inp).active_players = g.active_players.erase pid) := by
  unfold Game.takeTurn
  set X := (g.move_player pid inp.1).execute_player_turn pid inp.2 with hX
  have hXp : X.players = g.players := by
    rw [hX, execute_player_turn_players, (move_player_lists g pid inp.1).1]
  have hXa : X.active_players = g.active_players := by
    rw [hX, execute_player_turn_active, (move_player_lists g pid inp.1).2.1]
  by_cases hb : (X.ps pid).bankrupt
  · right
    rw [if_pos hb]
    exact ⟨by rw [(on_player_bankrupt_lists X pid).1, hXp],
           by rw [(on_player_bankrupt_lists X pid).2, hXa]⟩
  · left
    rw [if_neg hb]
    exact ⟨hXp, hXa⟩

theorem takeTurn_active_length (g : Game) (pid : Nat) (inp : Nat × Bool) :
    (g.takeTurn pid inp).active_players.length ≤ g.active_players.length := by
  rcases takeTurn_lists g pid inp with ⟨_, h⟩ | ⟨_, h⟩
  · rw [h]
  · rw [h]
    exact (List.erase_sublist _ _).length_le

theorem takeTurn_notmem (g : Game) (pid q : Nat) (inp : Nat × Bool)
    (h : q ∉ g.active_players) : q ∉ (g.takeTurn pid inp).active_players := by
  rcases takeTurn_lists g pid inp with ⟨_, he⟩ | ⟨_, he⟩
  · rw [he]; exact h
  · rw [he]
    intro hmem
    exact h (List.mem_of_mem_erase hmem)

theorem takeTurn_alias (g : Game) (pid : Nat) (inp : Nat × Bool)
    (h : g.players = g.active_players) :
    (g.takeTurn pid inp).players = (g.takeTurn pid inp).active_players := by
  rcases takeTurn_lists g pid inp with ⟨hp, ha⟩ | ⟨hp, ha⟩ <;> rw [hp, ha, h]

theorem runTurns_active_length (ins : Nat → Nat × Bool) (fuel : Nat) :
    ∀ (g : Game) (i t : Nat),
      (Game.runTurns ins fuel g i t).1.active_players.length ≤
        g.active_players.length := by
  induction fuel with
  | zero => intro g i t; exact le_refl _
  | succ f ih =>
    intro g i t
    unfold Game.runTurns
    by_cases h : i < g.active_players.length
    · simp only [h, dif_pos]
      exact le_trans (ih _ _ _) (takeTurn_active_length _ _ _)
    · simp only [h, dif_neg, not_false_iff]
      exact le_refl _

theorem runTurns_notmem (ins : Nat → Nat × Bool) (fuel : Nat) :
    ∀ (g : Game) (i t q : Nat), q ∉ g.active_players →
      q ∉ (Game.runTurns ins fuel g i t).1.active_players := by
  induction fuel with
  | zero => intro g i t q h; exact h
  | succ f ih =>
    intro g i t q h
    unfold Game.runTurns
    by_cases hi : i < g.active_players.length
    · simp only [hi, dif_pos]
      exact ih _ _ _ _ (takeTurn_notmem _ _ _ _ h)
    · simp only [hi, dif_neg, not_false_iff]
      exact h

theorem runTurns_alias (ins : Nat → Nat × Bool) (fuel : Nat) :
    ∀ (g : Game) (i t : Nat), g.players = g.active_players →
      (Game.runTurns ins fuel g i t).1.players =
        (Game.runTurns ins fuel g i t).1.active_players := by
  induction fuel with
  | zero => intro g i t h; exact h
  | succ f ih =>
    intro g i t h
    unfold Game.runTurns
    by_cases hi : i < g.active_players.length
    · simp only [hi, dif_pos]
      exact ih _ _ _ (takeTurn_alias _ _ _ h)
    · simp only [hi, dif_neg, not_false_iff]
      exact h

/-- If a whole pass of the player loop left `active_players` unchanged,
the processed players are exactly the round-start active players from
position `i` on. -/
theorem runTurns_trace (ins : Nat → Nat × Bool) (fuel : Nat) :
    ∀ (g : Game) (i t : Nat), g.active_players.length - i ≤ fuel →
      (Game.runTurns ins fuel g i t).1.active_players = g.active_players →
      (Game.runTurns ins fuel g i t).2.1 = g.active_players.drop i := by
  induction fuel with
  | zero =>
    intro g i t hfuel _
    have : g.active_players.length ≤ i := by omega
    simp [Game.runTurns, List.drop_eq_nil_of_le this]
  | succ f ih =>
    intro g i t hfuel hsame
    unfold Game.runTurns
    by_cases hi : i < g.active_players.length
    · simp only [hi, dif_pos]
      unfold Game.runTurns at hsame
      simp only [hi, dif_pos] at hsame
      set g' := g.takeTurn (g.active_players.get ⟨i, hi⟩) (ins t) with hg'
      have hlen1 : (Game.runTurns ins f g' (i + 1) (t + 1)).1.active_players.length ≤
          g'.active_players.length := runTurns_active_length ins f g' (i + 1) (t + 1)
      have hlen2 : g'.active_players.length ≤ g.active_players.length :=
        takeTurn_active_length _ _ _
      have hsame' : g'.active_players = g.active_players := by
        rcases takeTurn_lists g (g.active_players.get ⟨i, hi⟩) (ins t) with ⟨_, he⟩ | ⟨_, he⟩
        · exact he
        · exfalso
          have hmem : g.active_players.get ⟨i, hi⟩ ∈ g.active_players :=
            List.get_mem _ _ _
          have : g'.active_players.length = g.active_players.length - 1 := by
            rw [he]
            exact List.length_erase_of_mem hmem
          have hlen3 : (Game.runTurns ins f g' (i + 1) (t + 1)).1.active_players.length =
              g.active_players.length := by rw [hsame]
          have hpos : 0 < g.active_players.length := lt_of_le_of_lt (Nat.zero_le i) hi
          omega
      have htr : (Game.runTurns ins f g' (i + 1) (t + 1)).2.1 =
          g'.active_players.drop (i + 1) := by
        apply ih
        · rw [hsame']; omega
        · rw [hsame', hsame]
      simp only [htr, hsame']
      exact (List.drop_eq_getElem_cons hi).symm
    · simp only [hi, dif_neg, not_false_iff]
      have : g.active_players.length ≤ i := le_of_not_lt hi
      simp [List.drop_eq_nil_of_le this]

theorem should_run_lists (g : Game) :
    (g.should_run).2.players = g.players ∧
    (g.should_run).2.active_players = g.active_players := by
  unfold Game.should_run
  repeat' split
  all_goals exact ⟨rfl, rfl⟩

theorem playRound_alias (g : Game) (ins : Nat → Nat × Bool) (t : Nat)
    (h : g.players = g.active_players) :
    (g.playRound ins t).1.players = (g.playRound ins t).1.active_players :=
  runTurns_alias ins g.active_players.length g 0 t h

theorem loop_alias (ins : Nat → Nat × Bool) (fuel : Nat) :
    ∀ (g : Game) (t : Nat), g.players = g.active_players →
      (Game.loop ins fuel g t).players = (Game.loop ins fuel g t).active_players := by
  induction fuel with
  | zero => intro g t h; exact h
  | succ f ih =>
    intro g t h
    unfold Game.loop
    have hsr := should_run_lists g
    by_cases hb : (g.should_run).1
    · rw [if_pos hb]
      exact ih _ _ (playRound_alias _ ins t (hsr.1.trans (h.trans hsr.2.symm)))
    · rw [if_neg hb]
      exact hsr.1.trans (h.trans hsr.2.symm)

theorem finish_alias (g : Game) (h : g.players = g.active_players) :
    (g.finish).players = (g.finish).active_players := by
  simp only [Game.finish]
  repeat' split
  all_goals first | exact h | rfl

/-! ## C4: one turn per round-start active player -/

/--
C4 (amended).  The original claim states that every player active at the
start of a round takes exactly one turn that round even when bankruptcy
removals happen mid-round.  The source iterates `for player in
self.active_players` while `on_player_bankrupt` removes elements from that
same list, so CPython's list iterator skips the element that slides into
the removed player's slot — see `claimC4_counterexample`, where an
active-at-round-start player takes no turn.  Amended claim: in every round
in which no player is removed from `active_players` (no bankruptcy), the
players processed are exactly the round-start `active_players`, in order —
each takes exactly one turn.
-/
theorem claimC4_round_turns (g : Game) (ins : Nat → Nat × Bool) (t : Nat)
    (hsame : (g.playRound ins t).1.active_players = g.active_players) :
    (g.playRound ins t).2.1 = g.active_players := by
  have hsame' : (Game.runTurns ins g.active_players.length g 0 t).1.active_players =
      g.active_players := hsame
  have h := runTurns_trace ins g.active_players.length g 0 t (by omega) hsame'
  simpa using h

/--
C4 (counterexample to the original claim).  Starting `gSkip` from `setup`
with seating `[0, 1, 2]` and all dice rolls 1: player 0 pays rent 600 out
of 500 on its first turn, goes bankrupt and is removed mid-round, and
player 1 — active at round start — is skipped: the players processed in
round one are `[0, 2]`.
-/
theorem claimC4_counterexample :
    (1 : Nat) ∈ (gSkip.setup [0, 1, 2]).active_players ∧
    ((gSkip.setup [0, 1, 2]).playRound (fun _ => (1, false)) 0).2.1 = [0, 2] ∧
    (1 : Nat) ∉ ((gSkip.setup [0, 1, 2]).playRound (fun _ => (1, false)) 0).2.1 := by
  refine ⟨by decide, by decide, by decide⟩

/-- C4 (witness): a quiet first round of `gCalm` removes nobody, and the
turn trace is exactly the round-start active list. -/
theorem claimC4_witness :
    ((gCalm.playRound (fun _ => (1, false)) 0).1.active_players =
      gCalm.active_players) ∧
    (gCalm.playRound (fun _ => (1, false)) 0).2.1 = gCalm.active_players :=
  ⟨by decide, claimC4_round_turns gCalm (fun _ => (1, false)) 0 (by decide)⟩

/-! ## C5: the `players` roster and the `active_players` subset -/

/--
C5 (amended).  The original claim states that `players` always keeps the
full initial roster and is unaffected by bankruptcy removals.  In the
source, `setup` executes `self.active_players = self.players`, making the
two attributes aliases of one list, so `on_player_bankrupt`'s
`active_players.remove(player)` removes the player from `players` as well
— see `claimC5_counterexample`.  Amended claim: from `setup` on, `players`
and `active_players` are the same list: `setup` aliases them,
`on_player_bankrupt` erases the bankrupt player from both, every turn,
round, loop iteration and `finish` preserve the equality, and consequently
`active_players ⊆ players` does hold at all times (they are equal).
-/
theorem claimC5_roster_alias (g : Game) (order : List Nat) (pid : Nat)
    (inp : Nat × Bool) (ins : Nat → Nat × Bool) (t fuel : Nat) :
    ((g.setup order).players = (g.setup order).active_players) ∧
    ((g.on_player_bankrupt pid).players = g.players.erase pid ∧
     (g.on_player_bankrupt pid).active_players = g.active_players.erase pid) ∧
    (g.players = g.active_players →
      (g.takeTurn pid inp).players = (g.takeTurn pid inp).active_players) ∧
    (g.players = g.active_players →
      (g.playRound ins t).1.players = (g.playRound ins t).1.active_players) ∧
    (g.players = g.active_players →
      (Game.loop ins fuel g t).players = (Game.loop ins fuel g t).active_players) ∧
    (g.players = g.active_players →
      (g.finish).players = (g.finish).active_players) ∧
    (g.players = g.active_players → ∀ x ∈ g.active_players, x ∈ g.players) :=
  ⟨rfl,
   on_player_bankrupt_lists g pid,
   takeTurn_alias g pid inp,
   playRound_alias g ins t,
   loop_alias ins fuel g t,
   finish_alias g,
   fun h x hx => h ▸ hx⟩

/--
C5 (counterexample to the original claim).  After `setup` the roster is
`[0, 1, 2]`; in the first round of the run player 0 goes bankrupt, and its
removal from `active_players` also removes it from `players`, which
shrinks to `[1, 2]`.
-/
theorem claimC5_counterexample :
    (0 : Nat) ∈ (gShrink.setup [0, 1, 2]).players ∧
    ((gShrink.setup [0, 1, 2]).playRound (fun _ => (1, false)) 0).1.players = [1, 2] ∧
    (0 : Nat) ∉ ((gShrink.setup [0, 1, 2]).playRound (fun _ => (1, false)) 0).1.players := by
  refine ⟨by decide, by decide, by decide⟩

/-- C5 (witness): the alias equality propagates through a concrete turn. -/
theorem claimC5_witness :
    (gTwoLive.players = gTwoLive.active_players) ∧
    (gTwoLive.takeTurn 0 (1, false)).players =
      (gTwoLive.takeTurn 0 (1, false)).active_players :=
  ⟨by decide,
   (claimC5_roster_alias gTwoLive [0, 1] 0 (1, false) (fun _ => (1, false)) 0 0).2.2.1
     (by decide)⟩

/-! ## C8: bankruptcy processing -/

/--
C8 (confirmed).  `on_player_bankrupt(player)` removes the player from
`active_players` exactly once (the first occurrence; the count drops by
one, so a player listed once is gone), clears the owner of every board
property owned by that player while leaving all other properties
untouched, so all of the bankrupt player's properties become available —
and no later round ever re-adds a removed player to `active_players`.
-/
theorem claimC8_bankrupt (g : Game) (pid : Nat) (h : pid ∈ g.active_players)
    (ins : Nat → Nat × Bool) :
    ((g.on_player_bankrupt pid).active_players.count pid =
      g.active_players.count pid - 1) ∧
    (g.active_players.count pid = 1 →
      pid ∉ (g.on_player_bankrupt pid).active_players) ∧
    (∀ pr ∈ (g.on_player_bankrupt pid).board, pr.owner ≠ some pid) ∧
    (∀ i pr, g.board.get? i = some pr →
      (g.on_player_bankrupt pid).board.get? i =
        some (if pr.owner = some pid then { pr with owner := none } else pr)) ∧
    (∀ g' : Game, ∀ t, pid ∉ g'.active_players →
      pid ∉ (g'.playRound ins t).1.active_players) := by
  refine ⟨List.count_erase_self pid g.active_players, ?_, ?_, ?_, ?_⟩
  · intro hone
    have : (g.on_player_bankrupt pid).active_players.count pid = 0 := by
      rw [(on_player_bankrupt_lists g pid).2, List.count_erase_self, hone]
    simpa using List.count_eq_zero.mp this
  · intro pr hpr
    unfold Game.on_player_bankrupt at hpr
    simp only [List.mem_map] at hpr
    obtain ⟨pr0, _, hmap⟩ := hpr
    by_cases ho : pr0.owner = some pid
    · rw [if_pos ho] at hmap
      rw [← hmap]
      simp
    · rw [if_neg ho] at hmap
      rw [← hmap]
      exact ho
  · intro i pr hget
    unfold Game.on_player_bankrupt
    simp only [List.get?_map, hget]
    rfl
  · intro g' t hnot
    exact runTurns_notmem ins g'.active_players.length g' 0 t pid hnot

/-- C8 (witness): in `gBankrupt`, player 0's bankruptcy removes it from
`active_players` and frees its property (index 0) while leaving player 1's
property (index 2) untouched. -/
theorem claimC8_bankrupt_witness :
    ((0 : Nat) ∈ gBankrupt.active_players) ∧
    (gBankrupt.on_player_bankrupt 0).active_players.count 0 =
      gBankrupt.active_players.count 0 - 1 ∧
    (0 : Nat) ∉ (gBankrupt.on_player_bankrupt 0).active_players :=
  ⟨by decide,
   (claimC8_bankrupt gBankrupt 0 (by decide) (fun _ => (1, false))).1,
   (claimC8_bankrupt gBankrupt 0 (by decide) (fun _ => (1, false))).2.1 (by decide)⟩

/-! ## Helper lemmas: pricing data is never rewritten -/

theorem buy_propPR (pid : Nat) (amt : Int) (pr : Property) (e : Option BuyError)
    (amt' : Int) (pr' : Property) (h : buy pid amt pr = (e, amt', pr')) :
    propPR pr' = propPR pr := by
  unfold buy at h
  split at h
  · injection h with h1 h2
    injection h2 with h2 h3
    rw [← h3]
  · split at h
    · injection h with h1 h2
      injection h2 with h2 h3
      rw [← h3]
    · injection h with h1 h2
      injection h2 with h2 h3
      rw [← h3]
      rfl

theorem set_map_self {α β : Type} (l : List α) (f : α → β) (i : Nat) (a : α)
    (h : l.get? i = some a) : (l.map f).set i (f a) = l.map f := by
  apply List.ext_get?
  intro j
  by_cases hij : i = j
  · subst hij
    have hlen : i < l.length := (List.get?_eq_some.mp h).1
    have hlen' : i < (l.map f).length := by simpa using hlen
    rw [show ((l.map f).set i (f a)).get? i = some (f a) by
      rw [List.get?_eq_getElem?, List.getElem?_set_self hlen']]
    rw [List.get?_map, h]
    rfl
  · simp [List.get?_eq_getElem?, List.getElem?_set_ne hij]

theorem execute_boardPR (g : Game) (pid : Nat) (draw : Bool) :
    (g.execute_player_turn pid draw).board.map propPR = g.board.map propPR := by
  simp only [Game.execute_player_turn]
  split
  · rfl
  · rename_i target hget
    split
    · split
      · split
        · rename_i amt' target' hbuy
          show (g.board.set (g.ps pid).position target').map propPR = _
          rw [List.map_set, buy_propPR _ _ _ _ _ _ hbuy, set_map_self _ _ _ _ hget]
        · rfl
      · rfl
    · split
      · rfl
      · rfl

theorem bankrupt_boardPR (g : Game) (pid : Nat) :
    (g.on_player_bankrupt pid).board.map propPR = g.board.map propPR := by
  show (g.board.map fun pr =>
    if pr.owner = some pid then { pr with owner := none } else pr).map propPR = _
  rw [List.map_map]
  exact List.map_congr_left fun pr _ => by
    by_cases h : pr.owner = some pid <;> simp [Function.comp, propPR, h]

theorem move_player_board (g : Game) (pid d : Nat) :
    (g.move_player pid d).board = g.board := rfl

theorem takeTurn_boardPR (g : Game) (pid : Nat) (inp : Nat × Bool) :
    (g.takeTurn pid inp).board.map propPR = g.board.map propPR := by
  unfold Game.takeTurn
  by_cases hb : (((g.move_player pid inp.1).execute_player_turn pid inp.2).ps pid).bankrupt
  · rw [if_pos hb, bankrupt_boardPR, execute_boardPR, move_player_board]
  · rw [if_neg hb, execute_boardPR, move_player_board]

theorem runTurns_boardPR (ins : Nat → Nat × Bool) (fuel : Nat) :
    ∀ (g : Game) (i t : Nat),
      (Game.runTurns ins fuel g i t).1.board.map propPR = g.board.map propPR := by
  induction fuel with
  | zero => intro g i t; rfl
  | succ f ih =>
    intro g i t
    unfold Game.runTurns
    by_cases hi : i < g.active_players.length
    · simp only [hi, dif_pos]
      rw [ih, takeTurn_boardPR]
    · simp only [hi, dif_neg, not_false_iff]

theorem should_run_board (g : Game) : (g.should_run).2.board = g.board := by
  unfold Game.should_run
  repeat' split
  all_goals rfl

theorem finish_board (g : Game) : (g.finish).board = g.board := by
  simp only [Game.finish]
  repeat' split
  all_goals rfl

theorem loop_boardPR (ins : Nat → Nat × Bool) (fuel : Nat) :
    ∀ (g : Game) (t : Nat),
      (Game.loop ins fuel g t).board.map propPR = g.board.map propPR := by
  induction fuel with
  | zero => intro g t; rfl
  | succ f ih =>
    intro g t
    unfold Game.loop
    by_cases hb : (g.should_run).1
    · rw [if_pos hb, ih]
      show ((g.should_run).2.playRound ins t).1.board.map propPR = _
      have : ((g.should_run).2.playRound ins t).1.board =
          (Game.runTurns ins (g.should_run).2.active_players.length
            (g.should_run).2 0 t).1.board := rfl
      rw [this, runTurns_boardPR, should_run_board]
    · rw [if_neg hb, should_run_board]

theorem run_boardPR (g : Game) (order : List Nat) (ins : Nat → Nat × Bool) :
    (g.run order ins).board.map propPR = g.board.map propPR := by
  unfold Game.run
  rw [finish_board, loop_boardPR]
  rfl

theorem rentMatchesUpTo_sound (m : Nat) (hm : rentMatchesUpTo m = true) :
    ∀ n, 0 < n → n ≤ m → pyTruncPointOneMul n = n / 10 := by
  induction m with
  | zero => intro n h1 h2; omega
  | succ k ih =>
    intro n h1 h2
    have hsplit : pyTruncPointOneMul (k + 1) = (k + 1) / 10 ∧
        rentMatchesUpTo k = true := by
      simpa [rentMatchesUpTo] using hm
    rcases Nat.lt_or_ge n (k + 1) with hlt | hge
    · exact ih hsplit.2 n h1 (by omega)
    · have : n = k + 1 := by omega
      subst this
      exact hsplit.1

/-- For every price up to 1000, the float computation agrees with exact
integer division (checked exhaustively). -/
theorem rent_div10_upTo1000 : ∀ n, 0 < n → n ≤ 1000 →
    pyTruncPointOneMul n = n / 10 :=
  rentMatchesUpTo_sound 1000 (by decide)

/-! ## C9: `rent == floor(0.1 * price)` -/

/--
C9 (amended).  The original claim asserts `rent = floor(0.1 * price)` for
*every* integer price > 0.  The source computes `int(0.1 * price)` in
binary64 floating point, which deviates from exact arithmetic for large
prices — see `claimC9_counterexample` at price 7000000000000009.  Amended
claim: for every price with `0 < price ≤ 1000` (covering the whole range
`[100, 250]` that boards draw from and every price in the repository's
tests), the constructed rent equals `floor(0.1 * price) = price / 10`; and
the rent (and price) of every board property is never changed after
construction — a whole `Game.run` preserves the price/rent data of every
board cell.
-/
theorem claimC9_rent (g : Game) (order : List Nat) (ins : Nat → Nat × Bool)
    (price : Nat) (hpos : 0 < price) (hle : price ≤ 1000) :
    (Property.mk' price).rent = price / 10 ∧
    (g.run order ins).board.map propPR = g.board.map propPR :=
  ⟨rent_div10_upTo1000 price hpos hle,
   run_boardPR g order ins⟩

/--
C9 (counterexample to the original claim).  At price 7000000000000009
(an exact binary64 integer, below 2^53), CPython evaluates
`int(0.1 * 7000000000000009)` to 700000000000001, whereas
`floor(0.1 * 7000000000000009) = 700000000000000`.
-/
theorem claimC9_counterexample :
    (Property.mk' 7000000000000009).rent = 700000000000001 ∧
    (7000000000000009 : Nat) / 10 = 700000000000000 ∧
    (Property.mk' 7000000000000009).rent ≠ 7000000000000009 / 10 := by
  refine ⟨by decide, by decide, by decide⟩

/-- C9 (witness): the maximal board price 250 yields rent 25, and a
concrete one-player run preserves the board's pricing data. -/
theorem claimC9_witness :
    ((0 : Nat) < 250 ∧ (250 : Nat) ≤ 1000) ∧
    (Property.mk' 250).rent = 250 / 10 ∧
    (gPicky.run [0] (fun _ => (1, false))).board.map propPR =
      gPicky.board.map propPR :=
  ⟨⟨by decide, by decide⟩,
   (claimC9_rent gPicky [0] (fun _ => (1, false)) 250 (by decide) (by decide)).1,
   (claimC9_rent gPicky [0] (fun _ => (1, false)) 250 (by decide) (by decide)).2⟩

/-! ## Helper lemmas: strategies are never rewritten -/

theorem stratOf_setPs (g : Game) (i q : Nat) (p : PlayerState)
    (hp : p.strategy = (g.ps i).strategy) :
    (g.setPs i p).stratOf q = g.stratOf q := by
  unfold Game.stratOf
  rw [ps_setPs]
  split
  · rename_i hc
    rw [hp, hc.1]
  · rfl

theorem stratOf_move (g : Game) (pid' d q : Nat) :
    (g.move_player pid' d).stratOf q = g.stratOf q := by
  unfold Game.move_player
  exact stratOf_setPs g pid' q _ rfl

theorem stratOf_setPs_keep (g : Game) (i q : Nat) (a : Int) (pos : Nat) :
    (g.setPs i
      { amount := a, position := pos, strategy := (g.ps i).strategy }).stratOf q =
      g.stratOf q :=
  stratOf_setPs g i q _ rfl

theorem stratOf_pay_rent (g : Game) (pid' ownerId rent q : Nat) :
    (g.pay_rent pid' ownerId rent).stratOf q = g.stratOf q := by
  simp only [Game.pay_rent]
  rw [stratOf_setPs_keep, stratOf_setPs_keep]

theorem stratOf_execute (g : Game) (pid' q : Nat) (draw : Bool) :
    (g.execute_player_turn pid' draw).stratOf q = g.stratOf q := by
  simp only [Game.execute_player_turn]
  split
  · rfl
  · split
    · split
      · split
        · rename_i amt' target' hbuy
          exact stratOf_setPs_keep g pid' q amt' (g.ps pid').position
        · rfl
      · rfl
    · split
      · exact stratOf_pay_rent g pid' _ _ q
      · rfl

theorem stratOf_bankrupt (g : Game) (pid' q : Nat) :
    (g.on_player_bankrupt pid').stratOf q = g.stratOf q := rfl

theorem stratOf_takeTurn (g : Game) (pid' q : Nat) (inp : Nat × Bool) :
    (g.takeTurn pid' inp).stratOf q = g.stratOf q := by
  unfold Game.takeTurn
  by_cases hb : (((g.move_player pid' inp.1).execute_player_turn pid' inp.2).ps pid').bankrupt
  · rw [if_pos hb, stratOf_bankrupt, stratOf_execute, stratOf_move]
  · rw [if_neg hb, stratOf_execute, stratOf_move]

theorem stratOf_runTurns (ins : Nat → Nat × Bool) (fuel : Nat) :
    ∀ (g : Game) (i t q : Nat),
      (Game.runTurns ins fuel g i t).1.stratOf q = g.stratOf q := by
  induction fuel with
  | zero => intro g i t q; rfl
  | succ f ih =>
    intro g i t q
    unfold Game.runTurns
    by_cases hi : i < g.active_players.length
    · simp only [hi, dif_pos]
      rw [ih, stratOf_takeTurn]
    · simp only [hi, dif_neg, not_false_iff]

theorem stratOf_should_run (g : Game) (q : Nat) :
    (g.should_run).2.stratOf q = g.stratOf q := by
  unfold Game.should_run
  repeat' split
  all_goals rfl

theorem stratOf_loop (ins : Nat → Nat × Bool) (fuel : Nat) :
    ∀ (g : Game) (t q : Nat),
      (Game.loop ins fuel g t).stratOf q = g.stratOf q := by
  induction fuel with
  | zero => intro g t q; rfl
  | succ f ih =>
    intro g t q
    unfold Game.loop
    by_cases hb : (g.should_run).1
    · rw [if_pos hb, ih]
      show ((g.should_run).2.playRound ins t).1.stratOf q = _
      have : ((g.should_run).2.playRound ins t).1.stratOf q =
          (Game.runTurns ins (g.should_run).2.active_players.length
            (g.should_run).2 0 t).1.stratOf q := rfl
      rw [this, stratOf_runTurns, stratOf_should_run]
    · rw [if_neg hb, stratOf_should_run]

theorem stratOf_setup (g : Game) (order : List Nat) (q : Nat) :
    (g.setup order).stratOf q = g.stratOf q := by
  unfold Game.stratOf Game.ps Game.setup
  simp only [List.getD_eq_getElem?_getD, List.getElem?_map]
  cases h : g.pstate[q]? with
  | none => rfl
  | some p => rfl

theorem stratOf_finish (g : Game) (q : Nat) :
    (g.finish).stratOf q = g.stratOf q := by
  simp only [Game.finish]
  repeat' split
  all_goals rfl

/-! ## Helper lemmas: a picky player never becomes an owner -/

theorem buy_owner (pid : Nat) (amt : Int) (pr : Property) (amt' : Int)
    (pr' : Property) (h : buy pid amt pr = (none, amt', pr')) :
    pr' = { pr with owner := some pid } := by
  unfold buy at h
  split at h
  · exact absurd (congrArg Prod.fst h) (by simp)
  · split at h
    · exact absurd (congrArg Prod.fst h) (by simp)
    · injection h with h1 h2
      injection h2 with h2 h3
      exact h3.symm

theorem rent_eq_of_propPR {pr pr' : Property} (h : propPR pr' = propPR pr) :
    pr'.rent = pr.rent := by
  have := congrArg Prod.snd h
  simpa [propPR] using this

theorem pickyInv_move (g : Game) (pid pid' d : Nat) (h : PickyInv pid g) :
    PickyInv pid (g.move_player pid' d) := by
  obtain ⟨h1, h2, h3⟩ := h
  refine ⟨?_, ?_, ?_⟩
  · rw [stratOf_move]; exact h1
  · rw [move_player_board]; exact h2
  · rw [move_player_board]; exact h3

theorem pickyInv_execute (g : Game) (pid pid' : Nat) (draw : Bool)
    (h : PickyInv pid g) : PickyInv pid (g.execute_player_turn pid' draw) := by
  simp only [Game.execute_player_turn]
  split
  · exact h
  · rename_i target hget
    split
    · split
      · rename_i hcond
        split
        · rename_i amt' target' hbuy
          have htmem : target ∈ g.board := List.get?_mem hget
          have hne : pid' ≠ pid := by
            intro hpp
            subst hpp
            have hstrat : (g.ps pid').strategy = .picky := h.1
            have := hcond.2
            rw [hstrat] at this
            simp only [stratDecide] at this
            have hgt : 50 < target.rent := by simpa using this
            exact absurd (h.2.1 target htmem) (by omega)
          have howner : target'.owner = some pid' := by
            rw [buy_owner pid' (g.ps pid').amount target amt' target' hbuy]
          refine ⟨?_, ?_, ?_⟩
          · have hstr := stratOf_setPs_keep g pid' pid amt' (g.ps pid').position
            exact hstr.trans h.1
          · intro pr hpr
            rcases List.mem_or_eq_of_mem_set hpr with hmem | rfl
            · exact h.2.1 pr hmem
            · have := buy_propPR pid' (g.ps pid').amount target none amt' pr hbuy
              rw [rent_eq_of_propPR this]
              exact h.2.1 target htmem
          · intro pr hpr
            rcases List.mem_or_eq_of_mem_set hpr with hmem | rfl
            · exact h.2.2 pr hmem
            · rw [howner]
              simpa using fun hx => hne hx
        · exact h
      · exact h
    · split
      · refine ⟨?_, ?_, ?_⟩
        · rw [stratOf_pay_rent]; exact h.1
        · exact h.2.1
        · exact h.2.2
      · exact h

theorem pickyInv_bankrupt (g : Game) (pid pid' : Nat) (h : PickyInv pid g) :
    PickyInv pid (g.on_player_bankrupt pid') := by
  refine ⟨h.1, ?_, ?_⟩
  · intro pr hpr
    simp only [Game.on_player_bankrupt, List.mem_map] at hpr
    obtain ⟨pr0, hmem, hmap⟩ := hpr
    by_cases ho : pr0.owner = some pid'
    · rw [if_pos ho] at hmap
      rw [← hmap]
      exact h.2.1 pr0 hmem
    · rw [if_neg ho] at hmap
      rw [← hmap]
      exact h.2.1 pr0 hmem
  · intro pr hpr
    simp only [Game.on_player_bankrupt, List.mem_map] at hpr
    obtain ⟨pr0, hmem, hmap⟩ := hpr
    by_cases ho : pr0.owner = some pid'
    · rw [if_pos ho] at hmap
      rw [← hmap]
      simp
    · rw [if_neg ho] at hmap
      rw [← hmap]
      exact h.2.2 pr0 hmem

theorem pickyInv_takeTurn (g : Game) (pid pid' : Nat) (inp : Nat × Bool)
    (h : PickyInv pid g) : PickyInv pid (g.takeTurn pid' inp) := by
  unfold Game.takeTurn
  by_cases hb : (((g.move_player pid' inp.1).execute_player_turn pid' inp.2).ps pid').bankrupt
  · rw [if_pos hb]
    exact pickyInv_bankrupt _ _ _ (pickyInv_execute _ _ _ _ (pickyInv_move _ _ _ _ h))
  · rw [if_neg hb]
    exact pickyInv_execute _ _ _ _ (pickyInv_move _ _ _ _ h)

theorem pickyInv_runTurns (ins : Nat → Nat × Bool) (fuel : Nat) (pid : Nat) :
    ∀ (g : Game) (i t : Nat), PickyInv pid g →
      PickyInv pid (Game.runTurns ins fuel g i t).1 := by
  induction fuel with
  | zero => intro g i t h; exact h
  | succ f ih =>
    intro g i t h
    unfold Game.runTurns
    by_cases hi : i < g.active_players.length
    · simp only [hi, dif_pos]
      exact ih _ _ _ (pickyInv_takeTurn _ _ _ _ h)
    · simp only [hi, dif_neg, not_false_iff]
      exact h

theorem pickyInv_should_run (g : Game) (pid : Nat) (h : PickyInv pid g) :
    PickyInv pid (g.should_run).2 := by
  refine ⟨(stratOf_should_run g pid).trans h.1, ?_, ?_⟩
  · rw [should_run_board]; exact h.2.1
  · rw [should_run_board]; exact h.2.2

theorem pickyInv_loop (ins : Nat → Nat × Bool) (fuel : Nat) (pid : Nat) :
    ∀ (g : Game) (t : Nat), PickyInv pid g →
      PickyInv pid (Game.loop ins fuel g t) := by
  induction fuel with
  | zero => intro g t h; exact h
  | succ f ih =>
    intro g t h
    unfold Game.loop
    by_cases hb : (g.should_run).1
    · rw [if_pos hb]
      refine ih _ _ ?_
      show PickyInv pid (Game.runTurns ins (g.should_run).2.active_players.length
        (g.should_run).2 0 t).1
      exact pickyInv_runTurns ins _ pid _ 0 t (pickyInv_should_run g pid h)
    · rw [if_neg hb]
      exact pickyInv_should_run g pid h

theorem pickyInv_setup (g : Game) (pid : Nat) (order : List Nat)
    (h : PickyInv pid g) : PickyInv pid (g.setup order) :=
  ⟨(stratOf_setup g order pid).trans h.1, h.2.1, h.2.2⟩

theorem pickyInv_finish (g : Game) (pid : Nat) (h : PickyInv pid g) :
    PickyInv pid (g.finish) := by
  refine ⟨(stratOf_finish g pid).trans h.1, ?_, ?_⟩
  · rw [finish_board]; exact h.2.1
  · rw [finish_board]; exact h.2.2

/-! ## C10: the picky (Demanding) strategy never buys on a default board -/

/--
C10 (confirmed).  Every property of a board generated by `Board.__init__`
has price in `[100, 250]` and hence rent at most 25, so the picky
(Demanding) decision function — true only when `rent > 50` — rejects
every such property; consequently a player using the picky strategy never
owns any property at any point of a full `Game.run` on such a board.
-/
theorem claimC10_picky_never_buys (g : Game) (pid : Nat) (prices : List Nat)
    (hb : g.board = mkBoard prices)
    (hp : ∀ x ∈ prices, 100 ≤ x ∧ x ≤ 250)
    (hs : g.stratOf pid = .picky) :
    (∀ pr ∈ g.board, 100 ≤ pr.price ∧ pr.price ≤ 250 ∧ pr.rent ≤ 25) ∧
    (∀ pr ∈ g.board, ∀ p draw, stratDecide .picky p pr draw = false) ∧
    (∀ order ins, ∀ pr ∈ (g.run order ins).board, pr.owner ≠ some pid) := by
  have hboard : ∀ pr ∈ g.board, 100 ≤ pr.price ∧ pr.price ≤ 250 ∧ pr.rent ≤ 25 := by
    intro pr hpr
    rw [hb] at hpr
    obtain ⟨x, hx, rfl⟩ := List.mem_map.mp hpr
    obtain ⟨hx1, hx2⟩ := hp x hx
    refine ⟨hx1, hx2, ?_⟩
    show pyTruncPointOneMul x ≤ 25
    rw [rent_div10_upTo1000 x (by omega) (by omega)]
    omega
  refine ⟨hboard, ?_, ?_⟩
  · intro pr hpr p draw
    have hrent := (hboard pr hpr).2.2
    simp only [stratDecide]
    simp only [decide_eq_false_iff_not]
    omega
  · intro order ins
    have hInv : PickyInv pid g := by
      refine ⟨hs, ?_, ?_⟩
      · intro pr hpr
        have := (hboard pr hpr).2.2
        omega
      · intro pr hpr
        rw [hb] at hpr
        obtain ⟨x, hx, rfl⟩ := List.mem_map.mp hpr
        simp [Property.mk']
    have hfinal : PickyInv pid (g.run order ins) := by
      unfold Game.run
      exact pickyInv_finish _ _
        (pickyInv_loop ins _ pid _ 0 (pickyInv_setup g pid order hInv))
    exact hfinal.2.2

/-- C10 (witness): a picky player on a concrete default-layout board
(prices 100, 137, 250, 199) owns nothing after a full run. -/
theorem claimC10_witness :
    (gPicky.board = mkBoard [100, 137, 250, 199] ∧
     (∀ x ∈ ([100, 137, 250, 199] : List Nat), 100 ≤ x ∧ x ≤ 250) ∧
     gPicky.stratOf 0 = .picky) ∧
    (∀ pr ∈ (gPicky.run [0] (fun _ => (1, false))).board, pr.owner ≠ some 0) :=
  ⟨⟨rfl, by decide, by decide⟩,
   (claimC10_picky_never_buys gPicky 0 [100, 137, 250, 199] rfl (by decide)
     (by decide)).2.2 [0] (fun _ => (1, false))⟩
